import Mathlib

/-!
Shallow embedding of the NeoAlchemy simulated broker (`brokers.py`,
`LocalSimBroker`), the signal strategy (`strategies.py`,
`ConsecutiveChangeStrategy`), the tick agent (`agents.py`, `CryptoAgent`) and
the replay loop (`engines.py`, `BacktestEngine.run_backtest`).

Monetary and quantity arithmetic is embedded over `ℚ` with the exact decimal
values of the Python literals.  Fallible Python code (raised `ValueError` /
`ZeroDivisionError` / `TypeError`) is embedded as `Except`; an error carries
the broker state as left behind by the raising call, so that partial mutation
(or its absence) is part of the model.  Environment-generated order ids and
`datetime.now()` timestamps are modelled as an explicit `OrderMeta` supply.
-/

/-- Association-list lookup, the embedding of a Python `dict.get`. -/
def alookup {α : Type} : List (String × α) → String → Option α
  | [], _ => none
  | kv :: t, k => if kv.1 = k then some kv.2 else alookup t k

/-- Association-list write, the embedding of `d[k] = v` on a Python `dict`
(replaces the entry when the key is present, appends otherwise). -/
def aset {α : Type} : List (String × α) → String → α → List (String × α)
  | [], k, v => [(k, v)]
  | kv :: t, k, v => if kv.1 = k then (k, v) :: t else kv :: aset t k v

/-- Association-list delete, the embedding of `d.pop(k, None)`. -/
def aremove {α : Type} : List (String × α) → String → List (String × α)
  | [], _ => []
  | kv :: t, k => if kv.1 = k then aremove t k else kv :: aremove t k

/-- Containment of `pat` as a contiguous subsequence of `hay`. -/
def containsSeq (hay pat : List Char) : Bool :=
  match hay with
  | [] => pat.isEmpty
  | _ :: t => pat.isPrefixOf hay || containsSeq t pat

/-- Embedding of the Python substring test `pat in hay`. -/
def pyContains (hay pat : String) : Bool :=
  containsSeq hay.toList pat.toList

/-- Embedding of Python `str.upper()` (character-wise upper-casing). -/
def pyUpper (s : String) : String :=
  String.mk (s.toList.map Char.toUpper)

/-- Round to the nearest integer, ties to the even integer — the rounding
used by Python's builtin `round`. -/
def roundHalfEven (x : ℚ) : ℤ :=
  let f := ⌊x⌋
  let r := x - (f : ℚ)
  if r < 1/2 then f
  else if 1/2 < r then f + 1
  else if f % 2 = 0 then f else f + 1

/-- Embedding of Python `round(x, 2)` (round to cents, half to even). -/
def pyRound2 (x : ℚ) : ℚ :=
  ((roundHalfEven (x * 100) : ℤ) : ℚ) / 100

/-- Order side, mirroring the Alpaca `OrderSide` values used by the sim. -/
inductive OrderSide where
  | buy
  | sell
deriving DecidableEq, Repr

/-- Order type, mirroring the Alpaca `OrderType` values used by the sim. -/
inductive OrderType where
  | market
  | limit
deriving DecidableEq, Repr

/-- Order status values the sim creates or inspects. -/
inductive OrderStatus where
  | filled
  | canceled
  | new
  | accepted
  | pending_new
deriving DecidableEq, Repr

/-- Asset class recorded on positions and orders. -/
inductive AssetClass where
  | us_equity
  | crypto
deriving DecidableEq, Repr

/-- Error kinds of the sim broker's raised exceptions: `ValueError` for a
market order with no price data, insufficient cash, insufficient position,
order lookup / cancel failures; `TypeError` from `float(None)` on a limit
order without a limit price; `ZeroDivisionError` from the cost-basis
division. -/
inductive SimError where
  | noPriceData
  | insufficientCash
  | insufficientPosition
  | invalidLimit
  | zeroDivision
  | orderNotFound
  | invalidCancelState
deriving DecidableEq, Repr

/-- One entry of `LocalSimBroker.positions`: `{qty, avg_entry_price,
asset_class}`. -/
structure Position where
  qty : ℚ
  avg_entry_price : ℚ
  asset_class : AssetClass
deriving DecidableEq, Repr

/-- Environment-generated data consumed by one `submit_order` call: the
`uuid.uuid4()` order id, the `uuid.uuid4()` client order id, and the
`datetime.now()` timestamp (all opaque to the accounting logic). -/
structure OrderMeta where
  id : Nat
  client_id : Nat
  time : Nat
deriving DecidableEq, Repr

/-- The order record built by `LocalSimBroker.submit_order` (the fields the
sim's own logic reads or that carry trade economics). -/
structure Order where
  id : Nat
  client_order_id : Nat
  created_at : Nat
  symbol : String
  asset_class : AssetClass
  qty : ℚ
  filled_qty : ℚ
  otype : OrderType
  side : OrderSide
  limit_price : Option ℚ
  filled_avg_price : ℚ
  status : OrderStatus
  sim_fee_cash : ℚ
deriving DecidableEq, Repr

/-- One entry of `LocalSimBroker.ledger`. -/
structure LedgerEntry where
  time : Nat
  symbol : String
  side : OrderSide
  qty : ℚ
  price : ℚ
  fee_cash : ℚ
deriving DecidableEq, Repr

/-- The mutable state of a `LocalSimBroker` instance. -/
structure BrokerState where
  initial_cash : ℚ
  cash : ℚ
  positions : List (String × Position)
  orders : List Order
  ledger : List LedgerEntry
  current_prices : List (String × ℚ)
deriving DecidableEq, Repr

/-- State of `LocalSimBroker.__init__(initial_cash)`. -/
def initBroker (initial_cash : ℚ) : BrokerState :=
  { initial_cash := initial_cash
    cash := initial_cash
    positions := []
    orders := []
    ledger := []
    current_prices := [] }

/-- Fee constant `CRYPTO_FEE_RATE = 0.0025`. -/
def CRYPTO_FEE_RATE : ℚ := 0.0025

/-- Fee constant `SEC_FEE_RATE = 8.00 / 1_000_000`. -/
def SEC_FEE_RATE : ℚ := 8 / 1000000

/-- Fee constant `TAF_RATE = 0.000166`. -/
def TAF_RATE : ℚ := 0.000166

/-- Fee constant `TAF_MAX = 8.30`. -/
def TAF_MAX : ℚ := 8.30

/-- The dust threshold `1e-9` of `_update_position`. -/
def EPSILON : ℚ := 1 / 1000000000

/-- Embedding of `LocalSimBroker._is_crypto`: the symbol's uppercase form
contains one of the quote-currency substrings `/USD`, `/BTC`, `/ETH`,
`/USDT`. -/
def isCrypto (symbol : String) : Bool :=
  ["/USD", "/BTC", "/ETH", "/USDT"].any (fun suffix => pyContains (pyUpper symbol) suffix)

/-- The order request arguments of `submit_order` that the sim's logic
consumes (`time_in_force` is only echoed into the record and is omitted;
`current_price` is the `kwargs` reference price). -/
structure OrderRequest where
  symbol : String
  qty : ℚ
  side : OrderSide
  otype : OrderType
  limit_price : Option ℚ
  current_price : Option ℚ
deriving DecidableEq, Repr

/-- Embedding of `kwargs.get('current_price') or self.current_prices.get(symbol)`:
Python's `or` falls through on a falsy (absent or zero) first operand. -/
def resolveRaw (tape : List (String × ℚ)) (req : OrderRequest) : Option ℚ :=
  match req.current_price with
  | some p => if p = 0 then alookup tape req.symbol else some p
  | none => alookup tape req.symbol

/-- Fill-price resolution of `submit_order` (lines 268–282): a market order
with no raw price raises; a limit order fills at `float(limit_price)`
(raising when it is `None`); a market order fills at the raw price. -/
def resolveFillPrice (tape : List (String × ℚ)) (req : OrderRequest) : Except SimError ℚ :=
  match resolveRaw tape req with
  | none =>
    match req.otype with
    | .market => .error .noPriceData
    | .limit =>
      match req.limit_price with
      | some lp => .ok lp
      | none => .error .invalidLimit
  | some cp =>
    match req.otype with
    | .limit =>
      match req.limit_price with
      | some lp => .ok lp
      | none => .error .invalidLimit
    | .market => .ok cp

/-- Default position used by `_update_position` for a first fill. -/
def emptyPos (symbol : String) : Position :=
  { qty := 0
    avg_entry_price := 0
    asset_class := if isCrypto symbol then .crypto else .us_equity }

/-- Embedding of the BUY branch of `_update_position`: weighted-average cost
basis.  Returns `none` when `new_qty` is zero, where Python's float division
raises `ZeroDivisionError`. -/
def updatePositionBuy (ps : List (String × Position)) (symbol : String) (qty price : ℚ) :
    Option (List (String × Position)) :=
  let pos := (alookup ps symbol).getD (emptyPos symbol)
  let current_total_cost := pos.qty * pos.avg_entry_price
  let new_qty := pos.qty + qty
  if new_qty = 0 then none
  else some (aset ps symbol
    { pos with
      avg_entry_price := (current_total_cost + qty * price) / new_qty
      qty := new_qty })

/-- Embedding of the SELL branch of `_update_position`: reduce the quantity,
removing the position entirely when the result is `≤ 1e-9`. -/
def updatePositionSell (ps : List (String × Position)) (symbol : String) (qty : ℚ) :
    List (String × Position) :=
  let pos := (alookup ps symbol).getD (emptyPos symbol)
  let new_qty := pos.qty - qty
  if new_qty ≤ EPSILON then aremove ps symbol
  else aset ps symbol { pos with qty := new_qty }

/-- Quantity credited to the position by a buy fill: reduced in kind by the
taker fee for crypto (lines 301–307), unchanged for equities. -/
def buyFilledQty (symbol : String) (qty : ℚ) : ℚ :=
  if isCrypto symbol then qty * (1 - CRYPTO_FEE_RATE) else qty

/-- Cash fee deducted from the proceeds of a sell fill (lines 318–324). -/
def sellFee (symbol : String) (qty price : ℚ) : ℚ :=
  if isCrypto symbol then qty * price * CRYPTO_FEE_RATE
  else
    max (1/100) (pyRound2 (qty * price * SEC_FEE_RATE)) +
      min (max (1/100) (pyRound2 (qty * TAF_RATE))) TAF_MAX

/-- Outcome of the execution logic of `submit_order`, stated on the broker
components it reads.  `failPartial` is the `ZeroDivisionError` escape from
`_update_position` after the buy's cash was already deducted. -/
inductive ExecOutcome where
  | fail (e : SimError)
  | failPartial (cash2 : ℚ)
  | fill (fill_price filled_qty fee cash2 : ℚ) (ps2 : List (String × Position))
deriving DecidableEq, Repr

/-- Execution logic of `submit_order` (lines 259–329) as a function of the
cash, positions and tape it reads. -/
def execOrder (cash : ℚ) (ps : List (String × Position)) (tape : List (String × ℚ))
    (req : OrderRequest) : ExecOutcome :=
  match resolveFillPrice tape req with
  | .error e => .fail e
  | .ok fill_price =>
    match req.side with
    | .buy =>
      let total_cash_required := req.qty * fill_price
      if cash < total_cash_required then .fail .insufficientCash
      else
        let filled_qty := buyFilledQty req.symbol req.qty
        match updatePositionBuy ps req.symbol filled_qty fill_price with
        | none => .failPartial (cash - total_cash_required)
        | some ps2 => .fill fill_price filled_qty 0 (cash - total_cash_required) ps2
    | .sell =>
      match alookup ps req.symbol with
      | none => .fail .insufficientPosition
      | some pos =>
        if pos.qty < req.qty then .fail .insufficientPosition
        else
          let gross_proceeds := req.qty * fill_price
          let fee_amt_cash := sellFee req.symbol req.qty fill_price
          .fill fill_price req.qty fee_amt_cash (cash + (gross_proceeds - fee_amt_cash))
            (updatePositionSell ps req.symbol req.qty)

/-- The order record created at lines 331–356 for a fill. -/
def mkOrder (meta : OrderMeta) (req : OrderRequest) (filled_qty fill_price fee : ℚ) : Order :=
  { id := meta.id
    client_order_id := meta.client_id
    created_at := meta.time
    symbol := req.symbol
    asset_class := if isCrypto req.symbol then .crypto else .us_equity
    qty := req.qty
    filled_qty := filled_qty
    otype := req.otype
    side := req.side
    limit_price := req.limit_price
    filled_avg_price := fill_price
    status := .filled
    sim_fee_cash := fee }

/-- Embedding of `LocalSimBroker.submit_order`.  On success the new state and
the order record are returned; on failure the raised error kind is paired
with the state the exception left behind. -/
def submitOrder (s : BrokerState) (req : OrderRequest) (meta : OrderMeta) :
    Except (SimError × BrokerState) (Order × BrokerState) :=
  match execOrder s.cash s.positions s.current_prices req with
  | .fail e => .error (e, s)
  | .failPartial cash2 => .error (.zeroDivision, { s with cash := cash2 })
  | .fill fill_price filled_qty fee cash2 ps2 =>
    let order := mkOrder meta req filled_qty fill_price fee
    .ok (order,
      { s with
        cash := cash2
        positions := ps2
        orders := s.orders ++ [order]
        ledger := s.ledger ++
          [{ time := meta.time, symbol := req.symbol, side := req.side,
             qty := filled_qty, price := fill_price, fee_cash := fee }] })

/-- Embedding of `LocalSimBroker.update_price`. -/
def updatePrice (s : BrokerState) (symbol : String) (price : ℚ) : BrokerState :=
  { s with current_prices := aset s.current_prices symbol price }

/-- The account snapshot of `LocalSimBroker.get_account`, on the components
it reads (equity is accumulated starting from cash, mark price falling back
to the entry price when the tape has no entry for the symbol). -/
structure Account where
  cash : ℚ
  buying_power : ℚ
  equity : ℚ
  long_market_value : ℚ
deriving DecidableEq, Repr

/-- Accounting loop of `get_account` (lines 176–203). -/
def accountOf (cash : ℚ) (ps : List (String × Position)) (tape : List (String × ℚ)) : Account :=
  let r := ps.foldl
    (fun (acc : ℚ × ℚ) kv =>
      (acc.1 + kv.2.qty * ((alookup tape kv.1).getD kv.2.avg_entry_price),
       acc.2 + kv.2.qty * ((alookup tape kv.1).getD kv.2.avg_entry_price)))
    (cash, 0)
  { cash := cash, buying_power := cash, equity := r.1, long_market_value := r.2 }

/-- Embedding of `LocalSimBroker.get_account`. -/
def getAccount (s : BrokerState) : Account :=
  accountOf s.cash s.positions s.current_prices

/-- The held quantity a caller reads off `get_open_position(symbol)` (zero
when no position exists). -/
def heldQty (s : BrokerState) (symbol : String) : ℚ :=
  ((alookup s.positions symbol).map Position.qty).getD 0

/-- Trade signal of `strategies.Signal`. -/
inductive Signal where
  | sell
  | hold
  | buy
deriving DecidableEq, Repr

/-- Embedding of `ConsecutiveChangeStrategy.generate_signal` over the close
column of the window: two consecutive rises buy, two consecutive falls sell. -/
def generateSignal (closes : List ℚ) : Signal :=
  if closes.length < 3 then .hold
  else
    match closes.drop (closes.length - 3) with
    | [c0, c1, c2] =>
      if 0 < c1 - c0 ∧ 0 < c2 - c1 then .buy
      else if c1 - c0 < 0 ∧ c2 - c1 < 0 then .sell
      else .hold
    | _ => .hold

/-- Embedding of `CryptoAgent.handle_tick` (agents.py): reads the signal, the
held quantity and the account cash, and submits a half-cash market buy from
flat or a full-quantity market sell.  `metas` supplies the environment data
of order number `n` onward; the returned `Nat` is the next unused index.
Python's `ZeroDivisionError` on a zero current price is the error case. -/
def handleTick (symbol : String) (closes : List ℚ) (s : BrokerState)
    (metas : Nat → OrderMeta) (n : Nat) :
    Except (SimError × BrokerState) (BrokerState × Nat) :=
  let signal := generateSignal closes
  let qty_owned := heldQty s symbol
  let available_cash := (getAccount s).cash
  let current_price := closes.getLast?.getD 0
  match signal with
  | .buy =>
    if 0 < qty_owned then .ok (s, n)
    else if current_price = 0 then .error (.zeroDivision, s)
    else
      let buy_qty := available_cash * (1/2) / current_price
      if 0 < buy_qty then
        match submitOrder s
          { symbol := symbol, qty := buy_qty, side := .buy, otype := .market,
            limit_price := none, current_price := some current_price } (metas n) with
        | .error es => .error es
        | .ok r => .ok (r.2, n + 1)
      else .ok (s, n)
  | .sell =>
    if qty_owned ≤ 0 then .ok (s, n)
    else
      match submitOrder s
        { symbol := symbol, qty := qty_owned, side := .sell, otype := .market,
          limit_price := none, current_price := some current_price } (metas n) with
      | .error es => .error es
      | .ok r => .ok (r.2, n + 1)
  | .hold => .ok (s, n)

/-- One row of the per-tick history recorded by `run_backtest` (timestamp is
the bar index). -/
structure Snapshot where
  ts : Nat
  cash : ℚ
  equity : ℚ
  price : ℚ
deriving DecidableEq, Repr

/-- Accumulated replay-loop data: the recorded history, the broker state and
the next unused order-meta index. -/
structure RunAcc where
  history : List Snapshot
  state : BrokerState
  n : Nat
deriving DecidableEq, Repr

/-- One iteration of the `run_backtest` loop at bar index `i`: slice the
window `df.iloc[i - w : i + 1]`, push the close onto the tape, run the agent,
snapshot the account.  An agent exception aborts before the snapshot. -/
def backtestStep (symbol : String) (df : List ℚ) (w : Nat)
    (metas : Nat → OrderMeta) (acc : RunAcc) (i : Nat) :
    Except (SimError × RunAcc) RunAcc :=
  let window := (df.take (i + 1)).drop (i - w)
  let current_price := window.getLast?.getD 0
  let s1 := updatePrice acc.state symbol current_price
  match handleTick symbol window s1 metas acc.n with
  | .error es => .error (es.1, { acc with state := es.2 })
  | .ok r =>
    let a := getAccount r.1
    .ok { history := acc.history ++ [{ ts := i, cash := a.cash, equity := a.equity, price := current_price }]
          state := r.1
          n := r.2 }

/-- Fold of `backtestStep` over the remaining bar indices, aborting on the
first agent exception (which `run_backtest` does not catch). -/
def runBacktestAux (symbol : String) (df : List ℚ) (w : Nat) (metas : Nat → OrderMeta) :
    List Nat → RunAcc → Except (SimError × RunAcc) RunAcc
  | [], acc => .ok acc
  | i :: rest, acc =>
    match backtestStep symbol df w metas acc i with
    | .error e => .error e
    | .ok acc2 => runBacktestAux symbol df w metas rest acc2

/-- Embedding of `BacktestEngine.run_backtest` driving `CryptoAgent` with
`ConsecutiveChangeStrategy` over the close prices `df`, iterating bar indices
`range(window_size, len(df))`. -/
def runBacktest (w : Nat) (symbol : String) (df : List ℚ) (s0 : BrokerState)
    (metas : Nat → OrderMeta) : Except (SimError × RunAcc) RunAcc :=
  runBacktestAux symbol df w metas (List.range' w (df.length - w)) { history := [], state := s0, n := 0 }

/-- Embedding of `LocalSimBroker.cancel_orders`: flip every open-status order
to canceled. -/
def cancelOrders (s : BrokerState) : BrokerState :=
  let orders2 := s.orders.map
    (fun o => if o.status = .new ∨ o.status = .accepted then { o with status := .canceled } else o)
  { s with orders := orders2 }

/-- Order lookup of `get_order_by_id`: match on the order id or the client
order id. -/
def findOrder (orders : List Order) (oid : Nat) : Option Order :=
  orders.find? (fun o => o.id == oid || o.client_order_id == oid)

/-- In-place status mutation performed by `cancel_order_by_id` on the order
found by id. -/
def setCanceled : List Order → Nat → List Order
  | [], _ => []
  | o :: t, oid =>
    if o.id == oid || o.client_order_id == oid then { o with status := .canceled } :: t
    else o :: setCanceled t oid

/-- Embedding of `LocalSimBroker.cancel_order_by_id`. -/
def cancelOrderById (s : BrokerState) (oid : Nat) : Except SimError BrokerState :=
  match findOrder s.orders oid with
  | none => .error .orderNotFound
  | some o =>
    if o.status = .new ∨ o.status = .accepted ∨ o.status = .pending_new then
      .ok { s with orders := setCanceled s.orders oid }
    else .error .invalidCancelState

/-- Embedding of `LocalSimBroker.close_position`: a missing position returns
an empty record, otherwise a full-quantity market sell goes through
`submit_order` (no explicit reference price: the tape is used). -/
def closePosition (s : BrokerState) (symbol : String) (meta : OrderMeta) :
    Except (SimError × BrokerState) (Option Order × BrokerState) :=
  match alookup s.positions symbol with
  | none => .ok (none, s)
  | some pos =>
    match submitOrder s
      { symbol := symbol, qty := pos.qty, side := .sell, otype := .market,
        limit_price := none, current_price := none } meta with
    | .error es => .error es
    | .ok r => .ok (some r.1, r.2)

/-- Iteration of `close_all_positions` over the snapshot of position keys; a
raised error aborts the remaining iterations. -/
def closeAllAux (metas : Nat → OrderMeta) :
    List String → BrokerState → Nat → Except (SimError × BrokerState) (BrokerState × Nat)
  | [], s, n => .ok (s, n)
  | symbol :: rest, s, n =>
    match closePosition s symbol (metas n) with
    | .error es => .error es
    | .ok r => closeAllAux metas rest r.2 (n + 1)

/-- Embedding of `LocalSimBroker.close_all_positions` with its default
`cancel_orders=True`. -/
def closeAllPositions (s : BrokerState) (metas : Nat → OrderMeta) :
    Except (SimError × BrokerState) (BrokerState × Nat) :=
  let s1 := cancelOrders s
  closeAllAux metas (s1.positions.map Prod.fst) s1 0

/-- Broker state left behind by a `submit_order` call whether or not it
raised (a raised error leaves the state the exception escaped from). -/
def commitSubmit (s : BrokerState) (req : OrderRequest) (meta : OrderMeta) : BrokerState :=
  match submitOrder s req meta with
  | .ok r => r.2
  | .error es => es.2

/-- Broker state left behind by a `close_position` call. -/
def commitClose (s : BrokerState) (symbol : String) (meta : OrderMeta) : BrokerState :=
  match closePosition s symbol meta with
  | .ok r => r.2
  | .error es => es.2

/-- Broker state left behind by a `close_all_positions` call. -/
def commitCloseAll (s : BrokerState) (metas : Nat → OrderMeta) : BrokerState :=
  match closeAllPositions s metas with
  | .ok r => r.1
  | .error es => es.2

/-- Broker state left behind by a `cancel_order_by_id` call (unchanged when
it raises). -/
def commitCancelById (s : BrokerState) (oid : Nat) : BrokerState :=
  match cancelOrderById s oid with
  | .ok s2 => s2
  | .error _ => s

/-- Broker states reachable from a freshly constructed `LocalSimBroker`
through the public operations, with every order submission restricted to a
positive requested quantity. -/
inductive Reachable : BrokerState → Prop where
  | init (c : ℚ) : Reachable (initBroker c)
  | price {s : BrokerState} (symbol : String) (p : ℚ) :
      Reachable s → Reachable (updatePrice s symbol p)
  | submit {s : BrokerState} (req : OrderRequest) (meta : OrderMeta) :
      Reachable s → 0 < req.qty → Reachable (commitSubmit s req meta)
  | closePos {s : BrokerState} (symbol : String) (meta : OrderMeta) :
      Reachable s → Reachable (commitClose s symbol meta)
  | closeAll {s : BrokerState} (metas : Nat → OrderMeta) :
      Reachable s → Reachable (commitCloseAll s metas)
  | cancelAll {s : BrokerState} :
      Reachable s → Reachable (cancelOrders s)
  | cancelById {s : BrokerState} (oid : Nat) :
      Reachable s → Reachable (commitCancelById s oid)

/-- Strip the environment-generated fields (order id, client order id,
creation timestamp) off an order record. -/
def eraseOrder (o : Order) : Order :=
  { o with id := 0, client_order_id := 0, created_at := 0 }

/-- Strip the environment-generated timestamp off a ledger entry. -/
def eraseLedgerEntry (e : LedgerEntry) : LedgerEntry :=
  { e with time := 0 }

/-- Strip every environment-generated id and timestamp from a broker state,
leaving its economic content (cash, positions, tape, order and ledger
economics). -/
def eraseState (s : BrokerState) : BrokerState :=
  { s with orders := s.orders.map eraseOrder, ledger := s.ledger.map eraseLedgerEntry }

/-- Erase the broker state inside a replay-loop accumulator. -/
def eraseAcc (a : RunAcc) : RunAcc :=
  { a with state := eraseState a.state }

/-- Erase the broker state inside a replay-loop result. -/
def eraseRun : Except (SimError × RunAcc) RunAcc → Except (SimError × RunAcc) RunAcc
  | .ok a => .ok (eraseAcc a)
  | .error (e, a) => .error (e, eraseAcc a)

/-- Per-tick history recorded by a replay-loop run, whether or not the run
was aborted by an exception. -/
def historyOf : Except (SimError × RunAcc) RunAcc → List Snapshot
  | .ok a => a.history
  | .error (_, a) => a.history

/-- Two broker states agree on everything but environment-generated order
ids and timestamps. -/
def obsEq (s t : BrokerState) : Prop :=
  s.initial_cash = t.initial_cash ∧ s.cash = t.cash ∧ s.positions = t.positions ∧
    s.current_prices = t.current_prices ∧ s.orders.map eraseOrder = t.orders.map eraseOrder ∧
    s.ledger.map eraseLedgerEntry = t.ledger.map eraseLedgerEntry

/-- Two `submit_order` results agree up to environment-generated ids and
timestamps. -/
def resObsEq : Except (SimError × BrokerState) (Order × BrokerState) →
    Except (SimError × BrokerState) (Order × BrokerState) → Prop
  | .ok r1, .ok r2 => eraseOrder r1.1 = eraseOrder r2.1 ∧ obsEq r1.2 r2.2
  | .error e1, .error e2 => e1.1 = e2.1 ∧ obsEq e1.2 e2.2
  | _, _ => False

/-- Two `handle_tick` results agree up to environment-generated ids and
timestamps. -/
def tickObsEq : Except (SimError × BrokerState) (BrokerState × Nat) →
    Except (SimError × BrokerState) (BrokerState × Nat) → Prop
  | .ok r1, .ok r2 => obsEq r1.1 r2.1 ∧ r1.2 = r2.2
  | .error e1, .error e2 => e1.1 = e2.1 ∧ obsEq e1.2 e2.2
  | _, _ => False

/-- Two replay-loop accumulators agree up to environment-generated ids and
timestamps (the recorded histories agree exactly). -/
def accObsEq (a b : RunAcc) : Prop :=
  a.history = b.history ∧ obsEq a.state b.state ∧ a.n = b.n

/-- Two replay-loop results agree up to environment-generated ids and
timestamps. -/
def runObsEq : Except (SimError × RunAcc) RunAcc → Except (SimError × RunAcc) RunAcc → Prop
  | .ok a, .ok b => accObsEq a b
  | .error e1, .error e2 => e1.1 = e2.1 ∧ accObsEq e1.2 e2.2
  | _, _ => False

/-- A fixed order-meta value for concrete runs. -/
def meta0 : OrderMeta := { id := 0, client_id := 0, time := 0 }

/-- A second order-meta supply, differing from `fun _ => meta0` only in the
generated ids and timestamps. -/
def meta1 : OrderMeta := { id := 1, client_id := 1, time := 1 }

/-- Market buy request of 1 BTC/USD at reference price 50000. -/
def btcBuyReq : OrderRequest :=
  { symbol := "BTC/USD", qty := 1, side := .buy, otype := .market,
    limit_price := none, current_price := some 50000 }

/-- Result of the C2 scenario: buy 1 BTC/USD at 50000 from cash 1,000,000. -/
def btcBuyOut : Except (SimError × BrokerState) (Order × BrokerState) :=
  submitOrder (initBroker 1000000) btcBuyReq meta0

/-- Market buy request of 100 AAPL at reference price 150. -/
def aaplBuyReq : OrderRequest :=
  { symbol := "AAPL", qty := 100, side := .buy, otype := .market,
    limit_price := none, current_price := some 150 }

/-- Market sell request of 100 AAPL at reference price 160. -/
def aaplSellReq : OrderRequest :=
  { symbol := "AAPL", qty := 100, side := .sell, otype := .market,
    limit_price := none, current_price := some 160 }

/-- State after buying 100 AAPL at 150 from cash 100,000. -/
def aaplState : BrokerState :=
  commitSubmit (initBroker 100000) aaplBuyReq meta0

/-- Market buy request of 100 of the slash-separated symbol `A/B` at 150. -/
def abBuyReq : OrderRequest :=
  { symbol := "A/B", qty := 100, side := .buy, otype := .market,
    limit_price := none, current_price := some 150 }

/-- Market sell request of 100 `A/B` at 160. -/
def abSellReq : OrderRequest :=
  { symbol := "A/B", qty := 100, side := .sell, otype := .market,
    limit_price := none, current_price := some 160 }

/-- State after buying 100 `A/B` at 150 from cash 100,000. -/
def abState : BrokerState :=
  commitSubmit (initBroker 100000) abBuyReq meta0

/-- Market buy request of `1e-10` AAPL at reference price 1. -/
def tinyBuyReq : OrderRequest :=
  { symbol := "AAPL", qty := 1 / 10000000000, side := .buy, otype := .market,
    limit_price := none, current_price := none }

/-- State reached by a fresh broker after `update_price("AAPL", 1)` and a
market buy of `1e-10` AAPL. -/
def tinyState : BrokerState :=
  commitSubmit (updatePrice (initBroker 100000) "AAPL" 1) tinyBuyReq meta0

/-- Classification of the amended C7 claim, written out from the spec's
wording: a symbol is fee-classified as crypto exactly when its uppercase form
contains one of the four quote-currency substrings (a `/` separator alone
does not qualify). -/
def cryptoSpec (symbol : String) : Bool :=
  pyContains (pyUpper symbol) "/USD" || pyContains (pyUpper symbol) "/BTC" ||
    pyContains (pyUpper symbol) "/ETH" || pyContains (pyUpper symbol) "/USDT"

/-- Decidable equality for `Except` results, used to evaluate concrete runs. -/
instance {ε α : Type} [DecidableEq ε] [DecidableEq α] : DecidableEq (Except ε α)
  | .error a, .error b =>
    if h : a = b then .isTrue (congrArg Except.error h)
    else .isFalse (fun he => h (Except.error.inj he))
  | .ok a, .ok b =>
    if h : a = b then .isTrue (congrArg Except.ok h)
    else .isFalse (fun he => h (Except.ok.inj he))
  | .error _, .ok _ => .isFalse (fun he => Except.noConfusion he)
  | .ok _, .error _ => .isFalse (fun he => Except.noConfusion he)

/-- The position `_update_position` starts from: the held position when the
symbol is present, the default otherwise. -/
def oldPos (ps : List (String × Position)) (symbol : String) : Position :=
  (alookup ps symbol).getD (emptyPos symbol)

/-- Order extracted from a successful `submit_order` result (dummy on error). -/
def fillOrderOf (r : Except (SimError × BrokerState) (Order × BrokerState)) : Order :=
  match r with
  | .ok x => x.1
  | .error _ => mkOrder meta0 btcBuyReq 0 0 0

/-- Second market buy request of 1 BTC/USD, at reference price 60000. -/
def btcBuy2Req : OrderRequest :=
  { symbol := "BTC/USD", qty := 1, side := .buy, otype := .market,
    limit_price := none, current_price := some 60000 }

/-- Market sell request of 0.9975 BTC/USD at reference price 60000. -/
def btcSellReq : OrderRequest :=
  { symbol := "BTC/USD", qty := 0.9975, side := .sell, otype := .market,
    limit_price := none, current_price := some 60000 }

/-- State after the first concrete BTC/USD buy. -/
def btcState1 : BrokerState := commitSubmit (initBroker 1000000) btcBuyReq meta0

/-- Order of the first concrete BTC/USD buy. -/
def btcOrd1 : Order := fillOrderOf (submitOrder (initBroker 1000000) btcBuyReq meta0)

/-- State after the second concrete BTC/USD buy. -/
def btcState2 : BrokerState := commitSubmit btcState1 btcBuy2Req meta1

/-- Order of the second concrete BTC/USD buy. -/
def btcOrd2 : Order := fillOrderOf (submitOrder btcState1 btcBuy2Req meta1)

/-- Invariant of C9 (amended): every held position has strictly positive
quantity. -/
def posInv (ps : List (String × Position)) : Prop :=
  ∀ (symbol : String) (pos : Position), alookup ps symbol = some pos → 0 < pos.qty

theorem alookup_aset_self {α : Type} (l : List (String × α)) (k : String) (v : α) :
    alookup (aset l k v) k = some v := by
  induction l with
  | nil => simp [aset, alookup]
  | cons kv t ih =>
    by_cases h : kv.1 = k
    · simp [aset, alookup, h]
    · simp [aset, alookup, h, ih]

theorem alookup_aset_ne {α : Type} (l : List (String × α)) (k k2 : String) (v : α)
    (h : k2 ≠ k) : alookup (aset l k v) k2 = alookup l k2 := by
  induction l with
  | nil => simp [aset, alookup, Ne.symm h]
  | cons kv t ih =>
    by_cases hk : kv.1 = k
    · subst hk
      simp [aset, alookup, Ne.symm h]
    · simp [aset, alookup, hk, ih]

theorem alookup_aremove_self {α : Type} (l : List (String × α)) (k : String) :
    alookup (aremove l k) k = none := by
  induction l with
  | nil => simp [aremove, alookup]
  | cons kv t ih =>
    by_cases h : kv.1 = k
    · simp [aremove, alookup, h, ih]
    · simp [aremove, alookup, h, ih]

theorem alookup_aremove_ne {α : Type} (l : List (String × α)) (k k2 : String)
    (h : k2 ≠ k) : alookup (aremove l k) k2 = alookup l k2 := by
  induction l with
  | nil => simp [aremove, alookup]
  | cons kv t ih =>
    by_cases hk : kv.1 = k
    · subst hk
      simp [aremove, alookup, Ne.symm h, ih]
    · simp [aremove, alookup, hk, ih]

theorem submit_buy_ok {s : BrokerState} {req : OrderRequest} {m : OrderMeta}
    {o : Order} {s2 : BrokerState} (hside : req.side = .buy)
    (hok : submitOrder s req m = .ok (o, s2)) :
    ∃ p ps2, resolveFillPrice s.current_prices req = .ok p ∧
      ¬ s.cash < req.qty * p ∧
      updatePositionBuy s.positions req.symbol (buyFilledQty req.symbol req.qty) p = some ps2 ∧
      o = mkOrder m req (buyFilledQty req.symbol req.qty) p 0 ∧
      s2 = { s with
              cash := s.cash - req.qty * p
              positions := ps2
              orders := s.orders ++ [o]
              ledger := s.ledger ++
                [{ time := m.time, symbol := req.symbol, side := req.side,
                   qty := buyFilledQty req.symbol req.qty, price := p, fee_cash := 0 }] } := by
  unfold submitOrder execOrder at hok
  cases hres : resolveFillPrice s.current_prices req with
  | error e => rw [hres] at hok; simp at hok
  | ok p =>
    rw [hres, hside] at hok
    simp only at hok
    by_cases hcash : s.cash < req.qty * p
    · rw [if_pos hcash] at hok; simp at hok
    · rw [if_neg hcash] at hok
      cases hupd : updatePositionBuy s.positions req.symbol (buyFilledQty req.symbol req.qty) p with
      | none => rw [hupd] at hok; simp at hok
      | some ps2 =>
        rw [hupd] at hok
        simp only [Except.ok.injEq, Prod.mk.injEq] at hok
        refine ⟨p, ps2, rfl, hcash, hupd, hok.1.symm, ?_⟩
        rw [← hok.2, ← hok.1, hside]

theorem submit_sell_eq {s : BrokerState} {req : OrderRequest} {m : OrderMeta}
    {pos : Position} {p : ℚ} (hside : req.side = .sell)
    (hres : resolveFillPrice s.current_prices req = .ok p)
    (hpos : alookup s.positions req.symbol = some pos)
    (hq : ¬ pos.qty < req.qty) :
    submitOrder s req m = .ok (mkOrder m req req.qty p (sellFee req.symbol req.qty p),
      { s with
          cash := s.cash + (req.qty * p - sellFee req.symbol req.qty p)
          positions := updatePositionSell s.positions req.symbol req.qty
          orders := s.orders ++ [mkOrder m req req.qty p (sellFee req.symbol req.qty p)]
          ledger := s.ledger ++
            [{ time := m.time, symbol := req.symbol, side := req.side,
               qty := req.qty, price := p, fee_cash := sellFee req.symbol req.qty p }] }) := by
  unfold submitOrder execOrder
  rw [hres, hside]
  simp only
  rw [hpos]
  simp only [if_neg hq]

theorem submit_sell_ok {s : BrokerState} {req : OrderRequest} {m : OrderMeta}
    {o : Order} {s2 : BrokerState} (hside : req.side = .sell)
    (hok : submitOrder s req m = .ok (o, s2)) :
    ∃ p pos, resolveFillPrice s.current_prices req = .ok p ∧
      alookup s.positions req.symbol = some pos ∧ ¬ pos.qty < req.qty ∧
      o = mkOrder m req req.qty p (sellFee req.symbol req.qty p) ∧
      s2 = { s with
              cash := s.cash + (req.qty * p - sellFee req.symbol req.qty p)
              positions := updatePositionSell s.positions req.symbol req.qty
              orders := s.orders ++ [o]
              ledger := s.ledger ++
                [{ time := m.time, symbol := req.symbol, side := req.side,
                   qty := req.qty, price := p, fee_cash := sellFee req.symbol req.qty p }] } := by
  unfold submitOrder execOrder at hok
  cases hres : resolveFillPrice s.current_prices req with
  | error e => rw [hres] at hok; simp at hok
  | ok p =>
    rw [hres, hside] at hok
    simp only at hok
    cases hpos : alookup s.positions req.symbol with
    | none => rw [hpos] at hok; simp at hok
    | some pos =>
      rw [hpos] at hok
      simp only at hok
      by_cases hq : pos.qty < req.qty
      · rw [if_pos hq] at hok; simp at hok
      · rw [if_neg hq] at hok
        simp only [Except.ok.injEq, Prod.mk.injEq] at hok
        refine ⟨p, pos, rfl, rfl, hq, hok.1.symm, ?_⟩
        rw [← hok.2, ← hok.1, hside]

theorem submit_error_unchanged {s : BrokerState} {req : OrderRequest} {m : OrderMeta}
    {e : SimError} {s2 : BrokerState} (h : submitOrder s req m = .error (e, s2))
    (he : e = .insufficientCash ∨ e = .insufficientPosition) : s2 = s := by
  unfold submitOrder at h
  cases hE : execOrder s.cash s.positions s.current_prices req with
  | fail e2 =>
    rw [hE] at h
    simp only [Except.error.injEq, Prod.mk.injEq] at h
    exact h.2.symm
  | failPartial cash2 =>
    rw [hE] at h
    simp only [Except.error.injEq, Prod.mk.injEq] at h
    rcases he with he | he <;> rw [← h.1] at he <;> simp at he
  | fill fp fq fee c2 ps2 =>
    rw [hE] at h
    simp at h

theorem submit_insufficientCash_iff {s : BrokerState} {req : OrderRequest} {m : OrderMeta}
    {p : ℚ} (hres : resolveFillPrice s.current_prices req = .ok p) :
    (∃ s2, submitOrder s req m = .error (.insufficientCash, s2)) ↔
      req.side = .buy ∧ s.cash < req.qty * p := by
  unfold submitOrder execOrder
  rw [hres]
  cases hside : req.side with
  | buy =>
    simp only
    by_cases hcash : s.cash < req.qty * p
    · simp [hcash]
    · rw [if_neg hcash]
      cases hupd : updatePositionBuy s.positions req.symbol (buyFilledQty req.symbol req.qty) p <;>
        simp [hcash]
  | sell =>
    simp only
    cases hpos : alookup s.positions req.symbol with
    | none => simp
    | some pos =>
      by_cases hq : pos.qty < req.qty
      · simp [if_pos hq]
      · simp [if_neg hq]

theorem submit_insufficientPosition_iff {s : BrokerState} {req : OrderRequest} {m : OrderMeta}
    {p : ℚ} (hres : resolveFillPrice s.current_prices req = .ok p) (hq : 0 < req.qty) :
    (∃ s2, submitOrder s req m = .error (.insufficientPosition, s2)) ↔
      req.side = .sell ∧ heldQty s req.symbol < req.qty := by
  unfold submitOrder execOrder
  rw [hres]
  cases hside : req.side with
  | buy =>
    simp only
    by_cases hcash : s.cash < req.qty * p
    · simp [hcash]
    · rw [if_neg hcash]
      cases hupd : updatePositionBuy s.positions req.symbol (buyFilledQty req.symbol req.qty) p <;>
        simp [hcash]
  | sell =>
    simp only
    cases hpos : alookup s.positions req.symbol with
    | none => simp [heldQty, hpos, hq]
    | some pos =>
      by_cases hlt : pos.qty < req.qty
      · simp [if_pos hlt, heldQty, hpos, hlt]
      · simp [if_neg hlt, heldQty, hpos, hlt]

theorem updatePositionBuy_lookup {ps : List (String × Position)} {symbol : String}
    {q p : ℚ} {ps2 : List (String × Position)}
    (h : updatePositionBuy ps symbol q p = some ps2) :
    (oldPos ps symbol).qty + q ≠ 0 ∧
      alookup ps2 symbol = some
        { qty := (oldPos ps symbol).qty + q
          avg_entry_price :=
            ((oldPos ps symbol).qty * (oldPos ps symbol).avg_entry_price + q * p) /
              ((oldPos ps symbol).qty + q)
          asset_class := (oldPos ps symbol).asset_class } := by
  simp only [updatePositionBuy] at h
  simp only [oldPos]
  by_cases hz : ((alookup ps symbol).getD (emptyPos symbol)).qty + q = 0
  · rw [if_pos hz] at h
    simp at h
  · rw [if_neg hz] at h
    simp only [Option.some.injEq] at h
    subst h
    exact ⟨hz, alookup_aset_self _ _ _⟩

theorem updatePositionBuy_isSome {ps : List (String × Position)} {symbol : String}
    {q p : ℚ} (hz : (oldPos ps symbol).qty + q ≠ 0) :
    updatePositionBuy ps symbol q p = some (aset ps symbol
      { qty := (oldPos ps symbol).qty + q
        avg_entry_price :=
          ((oldPos ps symbol).qty * (oldPos ps symbol).avg_entry_price + q * p) /
            ((oldPos ps symbol).qty + q)
        asset_class := (oldPos ps symbol).asset_class }) := by
  simp only [oldPos] at hz
  simp only [updatePositionBuy, oldPos]
  rw [if_neg hz]

theorem foldl_addpair (f : String × Position → ℚ) :
    ∀ (l : List (String × Position)) (a b : ℚ),
      l.foldl (fun acc kv => (acc.1 + f kv, acc.2 + f kv)) (a, b) =
        (a + (l.map f).sum, b + (l.map f).sum) := by
  intro l
  induction l with
  | nil => intro a b; simp
  | cons kv t ih =>
    intro a b
    simp only [List.foldl_cons, List.map_cons, List.sum_cons, ih, Prod.mk.injEq]
    constructor <;> ring

/-- C1: in every broker state (hence after every mutation and every
`update_price` call) the equity reported by `get_account` equals cash plus
the sum over held positions of quantity times the mark price, where the mark
price is the tape price when present and the average entry price otherwise. -/
theorem getAccount_equity_identity (s : BrokerState) :
    (getAccount s).equity = s.cash +
      (s.positions.map (fun kv => kv.2.qty *
        ((alookup s.current_prices kv.1).getD kv.2.avg_entry_price))).sum := by
  unfold getAccount accountOf
  rw [foldl_addpair (fun kv => kv.2.qty * ((alookup s.current_prices kv.1).getD kv.2.avg_entry_price))]

unseal Rat.add Rat.mul Rat.inv Rat.sub Rat.ofScientific in
theorem btcBuy_concrete :
    btcBuyOut.toOption.map (fun r => (r.2.cash, alookup r.2.positions "BTC/USD")) =
      some (950000, some { qty := 0.9975, avg_entry_price := 50000, asset_class := .crypto }) := by
  decide

/-- C2: every successful BUY fill deducts exactly `requested_qty × fill_price`
from cash (no cash fee), and credits `requested_qty × (1 − 0.0025)` to the
position for a crypto symbol and exactly `requested_qty` for an equity; in
particular, buying 1.0 BTC/USD at 50000 from cash 1,000,000 leaves cash
950,000, position quantity 0.9975 and average entry price 50,000. -/
theorem buy_fill_cash_and_credit :
    (∀ (s : BrokerState) (req : OrderRequest) (m : OrderMeta) (o : Order) (s2 : BrokerState),
      req.side = .buy → submitOrder s req m = .ok (o, s2) →
      s2.cash = s.cash - req.qty * o.filled_avg_price ∧
      o.filled_qty = (if isCrypto req.symbol then req.qty * (1 - CRYPTO_FEE_RATE) else req.qty)) ∧
    btcBuyOut.toOption.map (fun r => (r.2.cash, alookup r.2.positions "BTC/USD")) =
      some (950000, some { qty := 0.9975, avg_entry_price := 50000, asset_class := .crypto }) := by
  constructor
  · intro s req m o s2 hside hok
    obtain ⟨p, ps2, hres, hcash, hupd, ho, hs⟩ := submit_buy_ok hside hok
    subst ho
    subst hs
    constructor
    · simp [mkOrder]
    · simp [mkOrder, buyFilledQty]
  · exact btcBuy_concrete

-- Witness for C2 at the concrete BTC/USD buy.
unseal Rat.add Rat.mul Rat.inv Rat.sub Rat.ofScientific in
theorem buy_fill_cash_and_credit_witness :
    ∃ o s2, btcBuyOut = .ok (o, s2) ∧
      s2.cash = (initBroker 1000000).cash - btcBuyReq.qty * o.filled_avg_price ∧
      o.filled_qty =
        (if isCrypto btcBuyReq.symbol then btcBuyReq.qty * (1 - CRYPTO_FEE_RATE) else btcBuyReq.qty) := by
  cases hE : btcBuyOut with
  | error e =>
    have hne : btcBuyOut.toOption ≠ none := by decide
    rw [hE] at hne
    simp [Except.toOption] at hne
  | ok r =>
    exact ⟨r.1, r.2, rfl, buy_fill_cash_and_credit.1 _ _ _ _ _ rfl hE⟩

/-- C3: with a resolvable fill price and the contract's positive requested
quantity, `submit_order` raises `InsufficientCash` exactly when a BUY's cash
is below `requested_qty × fill_price`, raises `InsufficientPosition` exactly
when a SELL's held quantity is below the requested quantity, and both
failures leave the whole broker state unchanged. -/
theorem insufficient_errors_exact :
    ∀ (s : BrokerState) (req : OrderRequest) (m : OrderMeta) (p : ℚ),
      resolveFillPrice s.current_prices req = .ok p → 0 < req.qty →
      ((∃ s2, submitOrder s req m = .error (.insufficientCash, s2)) ↔
        (req.side = .buy ∧ s.cash < req.qty * p)) ∧
      ((∃ s2, submitOrder s req m = .error (.insufficientPosition, s2)) ↔
        (req.side = .sell ∧ heldQty s req.symbol < req.qty)) ∧
      (∀ e s2, submitOrder s req m = .error (e, s2) →
        (e = .insufficientCash ∨ e = .insufficientPosition) → s2 = s) := by
  intro s req m p hres hq
  exact ⟨submit_insufficientCash_iff hres, submit_insufficientPosition_iff hres hq,
    fun e s2 h he => submit_error_unchanged h he⟩

-- Witness for C3: buying 1 BTC/USD at 50000 with only 10 of cash raises
-- InsufficientCash and leaves the state unchanged.
unseal Rat.add Rat.mul Rat.inv Rat.sub Rat.ofScientific in
theorem insufficient_errors_exact_witness :
    (∃ s2, submitOrder (initBroker 10) btcBuyReq meta0 = .error (.insufficientCash, s2)) ∧
    (∀ e s2, submitOrder (initBroker 10) btcBuyReq meta0 = .error (e, s2) →
      (e = .insufficientCash ∨ e = .insufficientPosition) → s2 = initBroker 10) := by
  have h := insufficient_errors_exact (initBroker 10) btcBuyReq meta0 50000 (by decide) (by decide)
  exact ⟨h.1.mpr ⟨rfl, by decide⟩, h.2.2⟩

/-- C4: a SELL of quantity `q` against a held position of quantity `h` with
`q ≤ h` and `h − q ≤ 1e-9` succeeds and removes the position from the
positions map entirely, never leaving a dust position. -/
theorem sell_dust_removes_position :
    ∀ (s : BrokerState) (req : OrderRequest) (m : OrderMeta) (p : ℚ) (pos : Position),
      req.side = .sell → resolveFillPrice s.current_prices req = .ok p →
      alookup s.positions req.symbol = some pos →
      req.qty ≤ pos.qty → pos.qty - req.qty ≤ EPSILON →
      ∃ o s2, submitOrder s req m = .ok (o, s2) ∧
        alookup s2.positions req.symbol = none := by
  intro s req m p pos hside hres hpos hle hdust
  refine ⟨_, _, submit_sell_eq hside hres hpos (not_lt.mpr hle), ?_⟩
  show alookup (updatePositionSell s.positions req.symbol req.qty) req.symbol = none
  simp only [updatePositionSell]
  rw [hpos]
  simp only [Option.getD_some]
  rw [if_pos hdust]
  exact alookup_aremove_self _ _

-- Witness for C4: selling the full 100-share AAPL position removes it.
unseal Rat.add Rat.mul Rat.inv Rat.sub Rat.ofScientific in
theorem sell_dust_removes_position_witness :
    ∃ o s2, submitOrder aaplState aaplSellReq meta0 = .ok (o, s2) ∧
      alookup s2.positions "AAPL" = none := by
  exact sell_dust_removes_position aaplState aaplSellReq meta0 160
    { qty := 100, avg_entry_price := 150, asset_class := .us_equity }
    rfl (by decide) (by decide) (by decide) (by decide)

unseal Rat.add Rat.mul Rat.inv Rat.sub Rat.ofScientific in
theorem aaplSell_concrete :
    (submitOrder aaplState aaplSellReq meta0).toOption.map
      (fun r => (r.1.sim_fee_cash, r.2.cash)) = some (0.15, 85000 + 16000 - 0.15) := by
  decide

/-- C5: an equity (non-crypto) SELL of quantity `q` at price `p` is charged
the cash fee `max(0.01, round(q·p·8e-6, 2)) + min(max(0.01, round(q·0.000166, 2)), 8.30)`
out of its gross proceeds, an equity BUY is charged no fee, and selling
100 AAPL at 160 after buying 100 at 150 from cash 100,000 pays a fee of
exactly 0.15 and credits `16000 − 0.15` to the 85,000 of remaining cash. -/
theorem equity_sell_fee_formula :
    (∀ (s : BrokerState) (req : OrderRequest) (m : OrderMeta) (o : Order) (s2 : BrokerState) (p : ℚ),
      req.side = .sell → isCrypto req.symbol = false →
      resolveFillPrice s.current_prices req = .ok p →
      submitOrder s req m = .ok (o, s2) →
      o.sim_fee_cash = max (1/100) (pyRound2 (req.qty * p * (8 / 1000000))) +
        min (max (1/100) (pyRound2 (req.qty * (0.000166 : ℚ)))) (8.30 : ℚ) ∧
      s2.cash = s.cash + (req.qty * p - o.sim_fee_cash)) ∧
    (∀ (s : BrokerState) (req : OrderRequest) (m : OrderMeta) (o : Order) (s2 : BrokerState),
      req.side = .buy → isCrypto req.symbol = false →
      submitOrder s req m = .ok (o, s2) →
      o.sim_fee_cash = 0 ∧ s2.cash = s.cash - req.qty * o.filled_avg_price) ∧
    (submitOrder aaplState aaplSellReq meta0).toOption.map
      (fun r => (r.1.sim_fee_cash, r.2.cash)) = some (0.15, 85000 + 16000 - 0.15) := by
  refine ⟨?_, ?_, aaplSell_concrete⟩
  · intro s req m o s2 p hside hcl hres hok
    obtain ⟨p2, pos, hres2, hpos, hq, ho, hs⟩ := submit_sell_ok hside hok
    rw [hres] at hres2
    injection hres2 with hp
    subst hp
    subst ho
    subst hs
    constructor
    · simp [mkOrder, sellFee, hcl, SEC_FEE_RATE, TAF_RATE, TAF_MAX]
    · simp [mkOrder]
  · intro s req m o s2 hside hcl hok
    obtain ⟨p, ps2, hres, hcash, hupd, ho, hs⟩ := submit_buy_ok hside hok
    subst ho
    subst hs
    constructor
    · simp [mkOrder]
    · simp [mkOrder]

-- Witness for C5 at the concrete AAPL round trip.
unseal Rat.add Rat.mul Rat.inv Rat.sub Rat.ofScientific in
theorem equity_sell_fee_formula_witness :
    ∃ o s2, submitOrder aaplState aaplSellReq meta0 = .ok (o, s2) ∧
      o.sim_fee_cash = max (1/100) (pyRound2 (aaplSellReq.qty * 160 * (8 / 1000000))) +
        min (max (1/100) (pyRound2 (aaplSellReq.qty * (0.000166 : ℚ)))) (8.30 : ℚ) ∧
      s2.cash = aaplState.cash + (aaplSellReq.qty * 160 - o.sim_fee_cash) := by
  cases hE : submitOrder aaplState aaplSellReq meta0 with
  | error e =>
    have hne : (submitOrder aaplState aaplSellReq meta0).toOption ≠ none := by decide
    rw [hE] at hne
    simp [Except.toOption] at hne
  | ok r =>
    exact ⟨r.1, r.2, rfl,
      equity_sell_fee_formula.1 _ _ _ _ _ 160 rfl (by decide) (by decide) hE⟩

/-- C6: each buy fill updates the average entry price to
`(old_qty·old_avg + filled_qty·fill_price) / (old_qty + filled_qty)`, and two
successive equal-sized buys from no position leave the average entry price at
`(p1 + p2) / 2` regardless of the in-kind crypto fee on the credited
quantities. -/
theorem weighted_average_cost_basis :
    (∀ (ps : List (String × Position)) (symbol : String) (q p : ℚ)
        (ps2 : List (String × Position)),
      updatePositionBuy ps symbol q p = some ps2 →
      ∃ pos2, alookup ps2 symbol = some pos2 ∧
        pos2.qty = (oldPos ps symbol).qty + q ∧
        pos2.avg_entry_price =
          ((oldPos ps symbol).qty * (oldPos ps symbol).avg_entry_price + q * p) /
            ((oldPos ps symbol).qty + q)) ∧
    (∀ (s0 : BrokerState) (req1 req2 : OrderRequest) (m1 m2 : OrderMeta)
        (o1 : Order) (s1 : BrokerState) (o2 : Order) (s2 : BrokerState),
      req1.side = .buy → req2.side = .buy → req2.symbol = req1.symbol →
      req2.qty = req1.qty → 0 < req1.qty →
      alookup s0.positions req1.symbol = none →
      submitOrder s0 req1 m1 = .ok (o1, s1) →
      submitOrder s1 req2 m2 = .ok (o2, s2) →
      ∃ pos, alookup s2.positions req1.symbol = some pos ∧
        pos.avg_entry_price = (o1.filled_avg_price + o2.filled_avg_price) / 2) := by
  constructor
  · intro ps symbol q p ps2 hupd
    obtain ⟨hz, hlk⟩ := updatePositionBuy_lookup hupd
    exact ⟨_, hlk, rfl, rfl⟩
  · intro s0 req1 req2 m1 m2 o1 s1 o2 s2 hside1 hside2 hsym hqty hq h0 hok1 hok2
    obtain ⟨p1, ps1, hres1, hc1, hupd1, ho1, hs1⟩ := submit_buy_ok hside1 hok1
    obtain ⟨p2, ps2', hres2, hc2, hupd2, ho2, hs2⟩ := submit_buy_ok hside2 hok2
    obtain ⟨hz1, hlk1⟩ := updatePositionBuy_lookup hupd1
    have hA : (oldPos s0.positions req1.symbol).qty = 0 := by simp [oldPos, h0, emptyPos]
    have hB : (oldPos s0.positions req1.symbol).avg_entry_price = 0 := by
      simp [oldPos, h0, emptyPos]
    rw [hA, zero_add] at hz1 hlk1
    rw [hB, zero_mul, zero_add] at hlk1
    subst hs1
    simp only at hupd2
    rw [hsym, hqty] at hupd2
    obtain ⟨hz2, hlk2⟩ := updatePositionBuy_lookup hupd2
    have hold2 : oldPos ps1 req1.symbol =
        { qty := buyFilledQty req1.symbol req1.qty
          avg_entry_price := buyFilledQty req1.symbol req1.qty * p1 /
            buyFilledQty req1.symbol req1.qty
          asset_class := (oldPos s0.positions req1.symbol).asset_class } := by
      simp [oldPos, hlk1]
    rw [hold2] at hz2 hlk2
    subst hs2
    subst ho1
    subst ho2
    simp only at hlk2 ⊢
    rw [hsym]
    refine ⟨_, hlk2, ?_⟩
    have hcne : buyFilledQty req1.symbol req1.qty ≠ 0 := hz1
    simp only [mkOrder]
    rw [mul_div_cancel_left₀ p1 hcne]
    field_simp
    ring

-- Witness for C6: two 1-BTC/USD buys at 50000 and 60000 leave average 55000.
unseal Rat.add Rat.mul Rat.inv Rat.sub Rat.ofScientific in
theorem weighted_average_cost_basis_witness :
    ∃ pos, alookup btcState2.positions "BTC/USD" = some pos ∧
      pos.avg_entry_price = (btcOrd1.filled_avg_price + btcOrd2.filled_avg_price) / 2 := by
  have h1 : submitOrder (initBroker 1000000) btcBuyReq meta0 = .ok (btcOrd1, btcState1) := by
    decide
  have h2 : submitOrder btcState1 btcBuy2Req meta1 = .ok (btcOrd2, btcState2) := by
    decide
  exact weighted_average_cost_basis.2 (initBroker 1000000) btcBuyReq btcBuy2Req meta0 meta1
    btcOrd1 btcState1 btcOrd2 btcState2 rfl rfl rfl rfl (by decide) (by decide) h1 h2

-- Counterexample for C7: the symbol "A/B" contains a `/` separator, yet a
-- sell of 100 A/B at 160 is charged the equity schedule's 0.15 fee rather
-- than the crypto schedule's 100·160·0.0025 = 40, and the preceding buy
-- credited the full 100 with no in-kind deduction.
unseal Rat.add Rat.mul Rat.inv Rat.sub Rat.ofScientific in
theorem slash_symbol_equity_fee_counterexample :
    pyContains "A/B" "/" = true ∧
    (alookup abState.positions "A/B").map Position.qty = some 100 ∧
    (submitOrder abState abSellReq meta0).toOption.map (fun r => r.1.sim_fee_cash) =
      some 0.15 ∧
    (0.15 : ℚ) ≠ 100 * 160 * CRYPTO_FEE_RATE := by
  decide

theorem cryptoSpec_eq_isCrypto (symbol : String) : cryptoSpec symbol = isCrypto symbol := by
  simp [cryptoSpec, isCrypto, Bool.or_assoc]

/-- C7 (amended): `submit_order` applies the crypto fee schedule exactly when
the symbol's uppercase form contains one of the quote-currency substrings
`/USD`, `/BTC`, `/ETH`, `/USDT`, and the equity fee schedule to every other
symbol; in particular a `/` separator alone does not select the crypto
schedule. -/
theorem fee_schedule_iff_quote_suffix :
    ∀ (s : BrokerState) (req : OrderRequest) (m : OrderMeta) (o : Order) (s2 : BrokerState) (p : ℚ),
      resolveFillPrice s.current_prices req = .ok p →
      submitOrder s req m = .ok (o, s2) →
      (req.side = .sell →
        o.sim_fee_cash = (if cryptoSpec req.symbol then req.qty * p * (0.0025 : ℚ)
          else max (1/100) (pyRound2 (req.qty * p * SEC_FEE_RATE)) +
            min (max (1/100) (pyRound2 (req.qty * TAF_RATE))) TAF_MAX)) ∧
      (req.side = .buy →
        o.filled_qty = (if cryptoSpec req.symbol then req.qty * (1 - (0.0025 : ℚ)) else req.qty) ∧
        o.sim_fee_cash = 0) := by
  intro s req m o s2 p hres hok
  constructor
  · intro hside
    obtain ⟨p2, pos, hres2, hpos, hq, ho, hs⟩ := submit_sell_ok hside hok
    rw [hres] at hres2
    injection hres2 with hp
    subst hp
    subst ho
    rw [cryptoSpec_eq_isCrypto]
    simp only [mkOrder, sellFee, CRYPTO_FEE_RATE]
  · intro hside
    obtain ⟨p2, ps2, hres2, hcash, hupd, ho, hs⟩ := submit_buy_ok hside hok
    subst ho
    rw [cryptoSpec_eq_isCrypto]
    simp only [mkOrder, buyFilledQty, CRYPTO_FEE_RATE]
    exact ⟨trivial, trivial⟩

-- Witness for C7 at the concrete BTC/USD sell of 0.9975 at 60000.
unseal Rat.add Rat.mul Rat.inv Rat.sub Rat.ofScientific in
theorem fee_schedule_iff_quote_suffix_witness :
    ∃ o s2, submitOrder btcState1 btcSellReq meta1 = .ok (o, s2) ∧
      o.sim_fee_cash = (if cryptoSpec "BTC/USD" then btcSellReq.qty * 60000 * (0.0025 : ℚ)
        else max (1/100) (pyRound2 (btcSellReq.qty * 60000 * SEC_FEE_RATE)) +
          min (max (1/100) (pyRound2 (btcSellReq.qty * TAF_RATE))) TAF_MAX) := by
  cases hE : submitOrder btcState1 btcSellReq meta1 with
  | error e =>
    have hne : (submitOrder btcState1 btcSellReq meta1).toOption ≠ none := by decide
    rw [hE] at hne
    simp [Except.toOption] at hne
  | ok r =>
    exact ⟨r.1, r.2, rfl,
      (fee_schedule_iff_quote_suffix _ _ _ _ _ 60000 (by decide) hE).1 rfl⟩

/-- C10: for a BUY with positive requested quantity and a resolvable fill
price, against positions of nonnegative held quantity (the spec's position
invariant), the weighted-average denominator `old_qty + credited_qty` is
strictly positive and `submit_order` can never raise the cost-basis
division-by-zero error. -/
theorem buy_update_division_welldefined :
    ∀ (s : BrokerState) (req : OrderRequest) (m : OrderMeta) (p : ℚ),
      req.side = .buy → 0 < req.qty →
      resolveFillPrice s.current_prices req = .ok p →
      (∀ symbol pos, alookup s.positions symbol = some pos → 0 ≤ pos.qty) →
      0 < (oldPos s.positions req.symbol).qty + buyFilledQty req.symbol req.qty ∧
      ∀ s2, submitOrder s req m ≠ .error (.zeroDivision, s2) := by
  intro s req m p hside hq hres hnn
  have hold : 0 ≤ (oldPos s.positions req.symbol).qty := by
    cases hl : alookup s.positions req.symbol with
    | none => simp [oldPos, hl, emptyPos]
    | some pos =>
      have := hnn _ _ hl
      simp [oldPos, hl, this]
  have hfil : 0 < buyFilledQty req.symbol req.qty := by
    unfold buyFilledQty
    by_cases hc : isCrypto req.symbol
    · rw [if_pos hc]
      have : (0 : ℚ) < 1 - CRYPTO_FEE_RATE := by norm_num [CRYPTO_FEE_RATE]
      exact mul_pos hq this
    · rw [if_neg hc]
      exact hq
  have hpos : 0 < (oldPos s.positions req.symbol).qty + buyFilledQty req.symbol req.qty := by
    linarith
  refine ⟨hpos, ?_⟩
  intro s2 h
  unfold submitOrder execOrder at h
  rw [hres, hside] at h
  simp only at h
  by_cases hcash : s.cash < req.qty * p
  · rw [if_pos hcash] at h
    simp at h
  · rw [if_neg hcash] at h
    rw [updatePositionBuy_isSome (ne_of_gt hpos)] at h
    simp at h

-- Witness for C10: a buy of 1 BTC/USD from a fresh broker with 10 cash has a
-- positive denominator and cannot raise the division error.
unseal Rat.add Rat.mul Rat.inv Rat.sub Rat.ofScientific in
theorem buy_update_division_welldefined_witness :
    0 < (oldPos (initBroker 10).positions "BTC/USD").qty +
      buyFilledQty "BTC/USD" btcBuyReq.qty ∧
    ∀ s2, submitOrder (initBroker 10) btcBuyReq meta0 ≠ .error (.zeroDivision, s2) := by
  exact buy_update_division_welldefined (initBroker 10) btcBuyReq meta0 50000 rfl (by decide)
    (by decide) (fun symbol pos h => by simp [initBroker, alookup] at h)

theorem buyFilledQty_pos {symbol : String} {q : ℚ} (hq : 0 < q) :
    0 < buyFilledQty symbol q := by
  unfold buyFilledQty
  by_cases hc : isCrypto symbol
  · rw [if_pos hc]
    have : (0 : ℚ) < 1 - CRYPTO_FEE_RATE := by norm_num [CRYPTO_FEE_RATE]
    exact mul_pos hq this
  · rw [if_neg hc]
    exact hq

theorem posInv_updateSell {ps : List (String × Position)} {symbol : String} {q : ℚ}
    (h : posInv ps) : posInv (updatePositionSell ps symbol q) := by
  intro sym2 pos2 hl
  simp only [updatePositionSell] at hl
  by_cases hd : ((alookup ps symbol).getD (emptyPos symbol)).qty - q ≤ EPSILON
  · rw [if_pos hd] at hl
    by_cases hs : sym2 = symbol
    · subst hs
      rw [alookup_aremove_self] at hl
      exact absurd hl (by simp)
    · rw [alookup_aremove_ne _ _ _ hs] at hl
      exact h _ _ hl
  · rw [if_neg hd] at hl
    by_cases hs : sym2 = symbol
    · subst hs
      rw [alookup_aset_self] at hl
      have heps : (0 : ℚ) < EPSILON := by norm_num [EPSILON]
      have : EPSILON < ((alookup ps sym2).getD (emptyPos sym2)).qty - q := lt_of_not_le hd
      injection hl with hl2
      rw [← hl2]
      exact lt_trans heps this
    · rw [alookup_aset_ne _ _ _ _ hs] at hl
      exact h _ _ hl

theorem posInv_updateBuy {ps : List (String × Position)} {symbol : String} {q p : ℚ}
    {ps2 : List (String × Position)} (h : posInv ps) (hq : 0 < q)
    (hupd : updatePositionBuy ps symbol q p = some ps2) : posInv ps2 := by
  have hz := (updatePositionBuy_lookup hupd).1
  have hset := updatePositionBuy_isSome (q := q) (p := p) hz
  rw [hupd] at hset
  injection hset with hset
  have hold : 0 ≤ (oldPos ps symbol).qty := by
    cases hl : alookup ps symbol with
    | none => simp [oldPos, hl, emptyPos]
    | some pos =>
      have := h _ _ hl
      simp [oldPos, hl]
      exact le_of_lt this
  intro sym2 pos2 hl
  rw [hset] at hl
  by_cases hs : sym2 = symbol
  · subst hs
    rw [alookup_aset_self] at hl
    injection hl with hl2
    rw [← hl2]
    simp only
    linarith
  · rw [alookup_aset_ne _ _ _ _ hs] at hl
    exact h _ _ hl

theorem submit_error_positions {s : BrokerState} {req : OrderRequest} {m : OrderMeta}
    {es : SimError × BrokerState} (herr : submitOrder s req m = .error es) :
    es.2.positions = s.positions := by
  unfold submitOrder at herr
  cases hE : execOrder s.cash s.positions s.current_prices req with
  | fail e =>
    rw [hE] at herr
    simp only [Except.error.injEq] at herr
    rw [← herr]
  | failPartial cash2 =>
    rw [hE] at herr
    simp only [Except.error.injEq] at herr
    rw [← herr]
  | fill fp fq fee c2 ps2 =>
    rw [hE] at herr
    simp at herr

theorem posInv_commitSubmit {s : BrokerState} {req : OrderRequest} {m : OrderMeta}
    (h : posInv s.positions) (hbq : req.side = .buy → 0 < req.qty) :
    posInv (commitSubmit s req m).positions := by
  unfold commitSubmit
  cases hsub : submitOrder s req m with
  | error es =>
    simp only
    rw [submit_error_positions hsub]
    exact h
  | ok r =>
    simp only
    cases hside : req.side with
    | buy =>
      obtain ⟨p, ps2, hres, hcash, hupd, ho, hs⟩ := submit_buy_ok hside hsub
      rw [hs]
      exact posInv_updateBuy h (buyFilledQty_pos (hbq hside)) hupd
    | sell =>
      obtain ⟨p, pos, hres, hpos, hlt, ho, hs⟩ := submit_sell_ok hside hsub
      rw [hs]
      exact posInv_updateSell h

theorem posInv_closePosition_error {s : BrokerState} {symbol : String} {m : OrderMeta}
    {es : SimError × BrokerState} (h : posInv s.positions)
    (herr : closePosition s symbol m = .error es) : posInv es.2.positions := by
  unfold closePosition at herr
  cases hl : alookup s.positions symbol with
  | none => rw [hl] at herr; simp at herr
  | some pos =>
    rw [hl] at herr
    simp only at herr
    cases hsub : submitOrder s
        { symbol := symbol, qty := pos.qty, side := .sell, otype := .market,
          limit_price := none, current_price := none } m with
    | error es2 =>
      rw [hsub] at herr
      simp only [Except.error.injEq] at herr
      rw [← herr, submit_error_positions hsub]
      exact h
    | ok r =>
      rw [hsub] at herr
      simp at herr

theorem posInv_closePosition_ok {s : BrokerState} {symbol : String} {m : OrderMeta}
    {r : Option Order × BrokerState} (h : posInv s.positions)
    (hok : closePosition s symbol m = .ok r) : posInv r.2.positions := by
  unfold closePosition at hok
  cases hl : alookup s.positions symbol with
  | none =>
    rw [hl] at hok
    simp only [Except.ok.injEq] at hok
    rw [← hok]
    exact h
  | some pos =>
    rw [hl] at hok
    simp only at hok
    cases hsub : submitOrder s
        { symbol := symbol, qty := pos.qty, side := .sell, otype := .market,
          limit_price := none, current_price := none } m with
    | error es2 => rw [hsub] at hok; simp at hok
    | ok r2 =>
      rw [hsub] at hok
      simp only [Except.ok.injEq] at hok
      obtain ⟨p, pos2, hres, hpos2, hlt, ho, hs⟩ := submit_sell_ok rfl hsub
      rw [← hok, hs]
      exact posInv_updateSell h

theorem posInv_closeAllAux (metas : Nat → OrderMeta) :
    ∀ (syms : List String) (s : BrokerState) (n : Nat), posInv s.positions →
      (∀ r, closeAllAux metas syms s n = .ok r → posInv r.1.positions) ∧
      (∀ es, closeAllAux metas syms s n = .error es → posInv es.2.positions) := by
  intro syms
  induction syms with
  | nil =>
    intro s n h
    constructor
    · intro r hr
      simp only [closeAllAux, Except.ok.injEq] at hr
      rw [← hr]
      exact h
    · intro es hes
      simp [closeAllAux] at hes
  | cons symbol rest ih =>
    intro s n h
    constructor
    · intro r hr
      simp only [closeAllAux] at hr
      cases hcp : closePosition s symbol (metas n) with
      | error es2 => rw [hcp] at hr; simp at hr
      | ok r2 =>
        rw [hcp] at hr
        simp only at hr
        exact (ih r2.2 (n + 1) (posInv_closePosition_ok h hcp)).1 r hr
    · intro es hes
      simp only [closeAllAux] at hes
      cases hcp : closePosition s symbol (metas n) with
      | error es2 =>
        rw [hcp] at hes
        simp only [Except.error.injEq] at hes
        rw [← hes]
        exact posInv_closePosition_error h hcp
      | ok r2 =>
        rw [hcp] at hes
        simp only at hes
        exact (ih r2.2 (n + 1) (posInv_closePosition_ok h hcp)).2 es hes

theorem cancelOrders_positions (s : BrokerState) : (cancelOrders s).positions = s.positions := rfl

theorem posInv_commitCloseAll {s : BrokerState} {metas : Nat → OrderMeta}
    (h : posInv s.positions) : posInv (commitCloseAll s metas).positions := by
  unfold commitCloseAll closeAllPositions
  have hc : posInv (cancelOrders s).positions := by rw [cancelOrders_positions]; exact h
  cases hall : closeAllAux metas ((cancelOrders s).positions.map Prod.fst) (cancelOrders s) 0 with
  | error es =>
    simp only
    exact (posInv_closeAllAux metas _ _ _ hc).2 es hall
  | ok r =>
    simp only
    exact (posInv_closeAllAux metas _ _ _ hc).1 r hall

theorem posInv_commitCancelById {s : BrokerState} {oid : Nat} (h : posInv s.positions) :
    posInv (commitCancelById s oid).positions := by
  unfold commitCancelById cancelOrderById
  cases hf : findOrder s.orders oid with
  | none => exact h
  | some o =>
    simp only
    by_cases hst : o.status = .new ∨ o.status = .accepted ∨ o.status = .pending_new
    · simp only [if_pos hst]
      exact h
    · simp only [if_neg hst]
      exact h

-- Counterexample for C9: a market buy of 1e-10 AAPL (a positive requested
-- quantity) is reachable and leaves a held position of quantity 1e-10, which
-- is not strictly greater than the 1e-9 epsilon.
unseal Rat.add Rat.mul Rat.inv Rat.sub Rat.ofScientific in
theorem dust_position_reachable_counterexample :
    Reachable tinyState ∧
    (alookup tinyState.positions "AAPL").map Position.qty = some (1 / 10000000000) ∧
    ¬ EPSILON < (1 / 10000000000 : ℚ) := by
  refine ⟨?_, by decide, by decide⟩
  exact Reachable.submit tinyBuyReq meta0
    (Reachable.price "AAPL" 1 (Reachable.init 100000)) (by decide)

/-- C9 (amended): in every broker state reachable from a fresh
`LocalSimBroker` through the public operations with positive submitted
quantities, every held position has strictly positive quantity (the spec's
`quantity ≥ 0` strengthened to `> 0`); the stronger bound `quantity > 1e-9`
does not hold, since a buy of less than `1e-9` creates a smaller position. -/
theorem reachable_positions_positive :
    ∀ (s : BrokerState), Reachable s →
      ∀ (symbol : String) (pos : Position),
        alookup s.positions symbol = some pos → 0 < pos.qty := by
  intro s h
  induction h with
  | init c => intro symbol pos hl; simp [initBroker, alookup] at hl
  | price symbol p hr ih => exact ih
  | submit req meta hr hq ih => exact posInv_commitSubmit ih (fun _ => hq)
  | closePos symbol meta hr ih =>
    unfold commitClose
    cases hcp : closePosition _ symbol meta with
    | error es => exact posInv_closePosition_error ih hcp
    | ok r => exact posInv_closePosition_ok ih hcp
  | closeAll metas hr ih => exact posInv_commitCloseAll ih
  | cancelAll hr ih => exact ih
  | cancelById oid hr ih => exact posInv_commitCancelById ih

-- Witness for C9 at the reachable 1e-10 AAPL position.
unseal Rat.add Rat.mul Rat.inv Rat.sub Rat.ofScientific in
theorem reachable_positions_positive_witness :
    0 < ({ qty := 1 / 10000000000, avg_entry_price := 1,
           asset_class := AssetClass.us_equity } : Position).qty := by
  exact reachable_positions_positive tinyState
    (Reachable.submit tinyBuyReq meta0
      (Reachable.price "AAPL" 1 (Reachable.init 100000)) (by decide))
    "AAPL" _ (by decide)

theorem submit_resObsEq {s t : BrokerState} (h : obsEq s t) (req : OrderRequest)
    (m1 m2 : OrderMeta) : resObsEq (submitOrder s req m1) (submitOrder t req m2) := by
  obtain ⟨h0, h1, h2, h3, h4, h5⟩ := h
  have hE2 : execOrder t.cash t.positions t.current_prices req =
      execOrder s.cash s.positions s.current_prices req := by rw [h1, h2, h3]
  unfold submitOrder
  rw [hE2]
  cases hE : execOrder s.cash s.positions s.current_prices req with
  | fail e => exact ⟨rfl, h0, h1, h2, h3, h4, h5⟩
  | failPartial c => exact ⟨rfl, h0, rfl, h2, h3, h4, h5⟩
  | fill fp fq fee c2 ps2 =>
    have ho : eraseOrder (mkOrder m1 req fq fp fee) = eraseOrder (mkOrder m2 req fq fp fee) :=
      rfl
    refine ⟨ho, h0, rfl, rfl, h3, ?_, ?_⟩
    · simp only [List.map_append, List.map_cons, List.map_nil, h4, ho]
    · simp only [List.map_append, List.map_cons, List.map_nil, h5]
      rfl

theorem updatePrice_obs {s t : BrokerState} (h : obsEq s t) (symbol : String) (p : ℚ) :
    obsEq (updatePrice s symbol p) (updatePrice t symbol p) := by
  obtain ⟨h0, h1, h2, h3, h4, h5⟩ := h
  have htape : aset s.current_prices symbol p = aset t.current_prices symbol p := by rw [h3]
  exact ⟨h0, h1, h2, htape, h4, h5⟩

theorem getAccount_obs {s t : BrokerState} (h : obsEq s t) : getAccount s = getAccount t := by
  obtain ⟨h0, h1, h2, h3, h4, h5⟩ := h
  unfold getAccount
  rw [h1, h2, h3]

theorem tick_submit_case {s t : BrokerState} (h : obsEq s t) (req : OrderRequest)
    (m1 m2 : OrderMeta) (n : Nat) :
    tickObsEq
      (match submitOrder s req m1 with
       | .error es => .error es
       | .ok r => .ok (r.2, n + 1))
      (match submitOrder t req m2 with
       | .error es => .error es
       | .ok r => .ok (r.2, n + 1)) := by
  have hsub := submit_resObsEq h req m1 m2
  cases hs1 : submitOrder s req m1 <;> cases hs2 : submitOrder t req m2 <;>
    rw [hs1, hs2] at hsub
  · exact ⟨hsub.1, hsub.2⟩
  · exact False.elim hsub
  · exact False.elim hsub
  · exact ⟨hsub.2, rfl⟩

theorem handleTick_obs {s t : BrokerState} (h : obsEq s t) (symbol : String)
    (closes : List ℚ) (metas1 metas2 : Nat → OrderMeta) (n : Nat) :
    tickObsEq (handleTick symbol closes s metas1 n) (handleTick symbol closes t metas2 n) := by
  have hq : heldQty s symbol = heldQty t symbol := by
    unfold heldQty
    rw [h.2.2.1]
  have hc : (getAccount s).cash = (getAccount t).cash := by rw [getAccount_obs h]
  unfold handleTick
  rw [hq, hc]
  cases hsig : generateSignal closes with
  | hold => exact ⟨h, rfl⟩
  | buy =>
    by_cases hown : 0 < heldQty t symbol
    · simp only [if_pos hown]
      exact ⟨h, rfl⟩
    · simp only [if_neg hown]
      by_cases hz : closes.getLast?.getD 0 = 0
      · simp only [if_pos hz]
        exact ⟨rfl, h⟩
      · simp only [if_neg hz]
        by_cases hbq : 0 < (getAccount t).cash * (1/2) / closes.getLast?.getD 0
        · simp only [if_pos hbq]
          exact tick_submit_case h _ _ _ _
        · simp only [if_neg hbq]
          exact ⟨h, rfl⟩
  | sell =>
    by_cases hown : heldQty t symbol ≤ 0
    · simp only [if_pos hown]
      exact ⟨h, rfl⟩
    · simp only [if_neg hown]
      exact tick_submit_case h _ _ _ _

theorem backtestStep_obs {a b : RunAcc} (hab : accObsEq a b) (symbol : String) (df : List ℚ)
    (w : Nat) (metas1 metas2 : Nat → OrderMeta) (i : Nat) :
    runObsEq (backtestStep symbol df w metas1 a i) (backtestStep symbol df w metas2 b i) := by
  obtain ⟨ah, as, an⟩ := a
  obtain ⟨bh, bs, bn⟩ := b
  obtain ⟨hh, hs, hn⟩ := hab
  dsimp only at hh hs hn
  subst hh
  subst hn
  simp only [backtestStep]
  have htick := handleTick_obs (updatePrice_obs hs symbol
      (((df.take (i + 1)).drop (i - w)).getLast?.getD 0)) symbol
      ((df.take (i + 1)).drop (i - w)) metas1 metas2 an
  cases ht1 : handleTick symbol ((df.take (i + 1)).drop (i - w))
      (updatePrice as symbol (((df.take (i + 1)).drop (i - w)).getLast?.getD 0)) metas1 an <;>
    cases ht2 : handleTick symbol ((df.take (i + 1)).drop (i - w))
      (updatePrice bs symbol (((df.take (i + 1)).drop (i - w)).getLast?.getD 0)) metas2 an <;>
    rw [ht1, ht2] at htick
  · exact ⟨htick.1, rfl, htick.2, rfl⟩
  · exact False.elim htick
  · exact False.elim htick
  · refine ⟨?_, htick.1, htick.2⟩
    dsimp only
    rw [getAccount_obs htick.1]

theorem runAux_obs (symbol : String) (df : List ℚ) (w : Nat)
    (metas1 metas2 : Nat → OrderMeta) :
    ∀ (idxs : List Nat) (a b : RunAcc), accObsEq a b →
      runObsEq (runBacktestAux symbol df w metas1 idxs a)
        (runBacktestAux symbol df w metas2 idxs b) := by
  intro idxs
  induction idxs with
  | nil => intro a b hab; exact hab
  | cons i rest ih =>
    intro a b hab
    simp only [runBacktestAux]
    have hstep := backtestStep_obs hab symbol df w metas1 metas2 i
    cases h1 : backtestStep symbol df w metas1 a i <;>
      cases h2 : backtestStep symbol df w metas2 b i <;>
      rw [h1, h2] at hstep
    · exact hstep
    · exact False.elim hstep
    · exact False.elim hstep
    · exact ih _ _ hstep

theorem obsEq_eraseState {s t : BrokerState} (h : obsEq s t) : eraseState s = eraseState t := by
  cases s with
  | mk i1 c1 ps1 os1 ld1 tp1 =>
    cases t with
    | mk i2 c2 ps2 os2 ld2 tp2 =>
      obtain ⟨h0, h1, h2, h3, h4, h5⟩ := h
      dsimp only at h0 h1 h2 h3 h4 h5
      subst h0
      subst h1
      subst h2
      subst h3
      simp only [eraseState]
      rw [h4, h5]

theorem accObsEq_eraseAcc {a b : RunAcc} (h : accObsEq a b) : eraseAcc a = eraseAcc b := by
  cases a with
  | mk ah as an =>
    cases b with
    | mk bh bs bn =>
      obtain ⟨hh, hs, hn⟩ := h
      dsimp only at hh hs hn
      subst hh
      subst hn
      simp only [eraseAcc]
      rw [obsEq_eraseState hs]

theorem runObsEq_conclusions {r1 r2 : Except (SimError × RunAcc) RunAcc} (h : runObsEq r1 r2) :
    historyOf r1 = historyOf r2 ∧ eraseRun r1 = eraseRun r2 := by
  cases r1 with
  | ok a =>
    cases r2 with
    | ok b =>
      refine ⟨h.1, ?_⟩
      simp only [eraseRun]
      rw [accObsEq_eraseAcc h]
    | error e2 => exact False.elim h
  | error e1 =>
    cases r2 with
    | ok b => exact False.elim h
    | error e2 =>
      obtain ⟨ea, aa⟩ := e1
      obtain ⟨eb, ab⟩ := e2
      obtain ⟨he, hacc⟩ := h
      dsimp only at he hacc
      refine ⟨hacc.1, ?_⟩
      simp only [eraseRun]
      rw [he, accObsEq_eraseAcc hacc]

/-- C8 (amended): two runs of the replay loop over the same bar sequence,
window size, agent and initial broker state record identical per-tick
histories of cash, equity and price, and end in identical broker states up to
the environment-generated order ids and timestamps (cash, positions, tape,
and all order and ledger economics coincide); the full final state including
generated ids and timestamps is not a function of those inputs alone. -/
theorem backtest_deterministic_up_to_ids (w : Nat) (symbol : String) (df : List ℚ)
    (s0 : BrokerState) (metas1 metas2 : Nat → OrderMeta) :
    historyOf (runBacktest w symbol df s0 metas1) =
      historyOf (runBacktest w symbol df s0 metas2) ∧
    eraseRun (runBacktest w symbol df s0 metas1) =
      eraseRun (runBacktest w symbol df s0 metas2) := by
  have h0 : accObsEq { history := [], state := s0, n := 0 } { history := [], state := s0, n := 0 } :=
    ⟨rfl, ⟨rfl, rfl, rfl, rfl, rfl, rfl⟩, rfl⟩
  exact runObsEq_conclusions
    (runAux_obs symbol df w metas1 metas2 (List.range' w (df.length - w)) _ _ h0)

-- Counterexample for C8: over the identical bar sequence [1, 2, 3], window
-- size 2, the same agent and the same fresh broker, two runs that draw
-- different order ids and timestamps record the same history but end in
-- different broker states (the recorded order id and timestamps differ).
unseal Rat.add Rat.mul Rat.inv Rat.sub Rat.ofScientific in
theorem backtest_state_differs_across_id_sources :
    (runBacktest 2 "BTC/USD" [1, 2, 3] (initBroker 10000) (fun _ => meta0)).toOption.map
      RunAcc.state ≠
      (runBacktest 2 "BTC/USD" [1, 2, 3] (initBroker 10000) (fun _ => meta1)).toOption.map
        RunAcc.state ∧
    historyOf (runBacktest 2 "BTC/USD" [1, 2, 3] (initBroker 10000) (fun _ => meta0)) =
      historyOf (runBacktest 2 "BTC/USD" [1, 2, 3] (initBroker 10000) (fun _ => meta1)) := by
  decide
